import Mathlib

/-!
Verification of the mlpack LMNN `Constraints` class (constraints.hpp).

The source tree carries the interface declaration (constraints.hpp); the
implementation file constraints_impl.hpp it includes is absent, so each
operation below is modelled from the specification, as its doc comment notes.
A dataset is a list of N points (the columns of the D x N matrix), with exact
rational coordinates; labels are an N-length list of naturals; fallible
operations return `Except CError`.
-/

/-- Error taxonomy of the specification: dimension mismatch between dataset and
labels, a reference group smaller than k, and an out-of-range point selection. -/
inductive CError where
  | DimensionMismatch
  | InsufficientReferencePoints
  | IndexOutOfRange
deriving DecidableEq, Repr

instance {ε α : Type} [DecidableEq ε] [DecidableEq α] : DecidableEq (Except ε α) :=
  fun a b =>
    match a, b with
    | .ok x, .ok y => decidable_of_iff (x = y) (by simp)
    | .error e, .error e2 => decidable_of_iff (e = e2) (by simp)
    | .ok _, .error _ => .isFalse (by simp)
    | .error _, .ok _ => .isFalse (by simp)

/-- A data point: one column of the D x N dataset matrix. -/
abbrev Pt := List ℚ

/-- Modelled from the spec: mlpack metric SquaredEuclideanDistance, the default
MetricType of `Constraints` (constraints.hpp line 30): the sum of squared
coordinate differences, with no square root. -/
def sqDist (p q : Pt) : ℚ := (List.zipWith (fun a b => (a - b) * (a - b)) p q).sum

/-- Squared distance from dataset point q to dataset point i. -/
def distTo (dataset : List Pt) (q i : Nat) : ℚ :=
  sqDist (dataset.getD q []) (dataset.getD i [])

/-- Label of point i. -/
def lbl (labels : List Nat) (i : Nat) : Nat := labels.getD i 0

/-- Modelled from the spec: sameGroup[L] of the LabelPartitioner, the indices
of all points whose label equals L. -/
def groupSame (labels : List Nat) (L : Nat) : List Nat :=
  (List.range labels.length).filter (fun i => lbl labels i == L)

/-- Modelled from the spec: diffGroup[L] of the LabelPartitioner, the indices
of all points whose label differs from L. -/
def groupDiff (labels : List Nat) (L : Nat) : List Nat :=
  (List.range labels.length).filter (fun i => lbl labels i != L)

/-- Order on reference indices: nearer to query point q first. -/
def nearLE (dataset : List Pt) (q : Nat) (i j : Nat) : Prop :=
  distTo dataset q i ≤ distTo dataset q j

instance (dataset : List Pt) (q : Nat) : DecidableRel (nearLE dataset q) :=
  fun i j => inferInstanceAs (Decidable (distTo dataset q i ≤ distTo dataset q j))

instance (dataset : List Pt) (q : Nat) : IsTotal Nat (nearLE dataset q) :=
  ⟨fun i j => le_total (distTo dataset q i) (distTo dataset q j)⟩

instance (dataset : List Pt) (q : Nat) : IsTrans Nat (nearLE dataset q) :=
  ⟨fun _ _ _ h h2 => le_trans h h2⟩

/-- Order on (index, distance) candidate pairs: smaller distance first. -/
def distLE (a b : Nat × ℚ) : Prop := a.2 ≤ b.2

instance : DecidableRel distLE :=
  fun a b => inferInstanceAs (Decidable (a.2 ≤ b.2))

instance : IsTotal (Nat × ℚ) distLE := ⟨fun a b => le_total a.2 b.2⟩

instance : IsTrans (Nat × ℚ) distLE := ⟨fun _ _ _ h h2 => le_trans h h2⟩

/-- Modelled from the spec: the NeighborQueryAdapter for one query point,
indices only: the k indices of reference set R nearest to point q, sorted
ascending by distance (stable for ties), or InsufficientReferencePoints when R
has fewer than k members. -/
def knnIdx (dataset : List Pt) (R : List Nat) (q k : Nat) : Except CError (List Nat) :=
  if R.length < k then .error .InsufficientReferencePoints
  else .ok ((R.insertionSort (nearLE dataset q)).take k)

/-- Modelled from the spec: the NeighborQueryAdapter returning each neighbor
index paired with its distance to the query point. -/
def knnPairs (dataset : List Pt) (R : List Nat) (q k : Nat) :
    Except CError (List (Nat × ℚ)) :=
  if R.length < k then .error .InsufficientReferencePoints
  else .ok (((R.map (fun i => (i, distTo dataset q i))).insertionSort distLE).take k)

/-- Reference set for the target-neighbor query of point c: the same-label
group of c's label, excluding c itself. -/
def targetRefs (labels : List Nat) (c : Nat) : List Nat :=
  (groupSame labels (lbl labels c)).filter (fun i => i != c)

/-- One column of a TargetNeighbors result: the k nearest same-label
neighbors of point c. -/
def targetColumn (dataset : List Pt) (labels : List Nat) (k c : Nat) :
    Except CError (List Nat) :=
  knnIdx dataset (targetRefs labels c) c k

/-- One column of an indices-only Impostors result: the k nearest
differently-labeled neighbors of point c. -/
def impostorColumn (dataset : List Pt) (labels : List Nat) (k c : Nat) :
    Except CError (List Nat) :=
  knnIdx dataset (groupDiff labels (lbl labels c)) c k

/-- One column of an Impostors-with-distances result. -/
def impostorColumnPairs (dataset : List Pt) (labels : List Nat) (k c : Nat) :
    Except CError (List (Nat × ℚ)) :=
  knnPairs dataset (groupDiff labels (lbl labels c)) c k

/-- Error-propagating map: the column computation applied to every requested
point, failing as a whole as soon as any column fails (fail-fast, no partial
result). -/
def exMap (f : Nat → Except CError α) : List Nat → Except CError (List α)
  | [] => .ok []
  | x :: xs =>
    match f x with
    | .error e => .error e
    | .ok y =>
      match exMap f xs with
      | .error e => .error e
      | .ok ys => .ok (y :: ys)

/-- Modelled from the spec: full-dataset TargetNeighbors (constraints.hpp
lines 57-59); the result is the list of N columns, each the k nearest
same-label neighbors of the corresponding point. -/
def TargetNeighbors (dataset : List Pt) (labels : List Nat) (k : Nat) :
    Except CError (List (List Nat)) :=
  if dataset.length != labels.length then .error .DimensionMismatch
  else exMap (targetColumn dataset labels k) (List.range labels.length)

/-- Modelled from the spec: contiguous-batch TargetNeighbors (constraints.hpp
lines 71-75), for points bgn, bgn+1, ..., bgn+batchSize-1. -/
def TargetNeighborsBatch (dataset : List Pt) (labels : List Nat)
    (k bgn batchSize : Nat) : Except CError (List (List Nat)) :=
  if dataset.length != labels.length then .error .DimensionMismatch
  else if labels.length < bgn + batchSize then .error .IndexOutOfRange
  else exMap (targetColumn dataset labels k) ((List.range batchSize).map (fun j => bgn + j))

/-- Modelled from the spec: full-dataset indices-only Impostors
(constraints.hpp lines 85-87). -/
def ImpostorsIdx (dataset : List Pt) (labels : List Nat) (k : Nat) :
    Except CError (List (List Nat)) :=
  if dataset.length != labels.length then .error .DimensionMismatch
  else exMap (impostorColumn dataset labels k) (List.range labels.length)

/-- Splits a list of (index, distance) columns into the index matrix and the
distance matrix written to the two output arguments. -/
def splitPairs (cols : List (List (Nat × ℚ))) : List (List Nat) × List (List ℚ) :=
  (cols.map (List.map Prod.fst), cols.map (List.map Prod.snd))

/-- Modelled from the spec: full-dataset Impostors with distances
(constraints.hpp lines 98-101): the index matrix paired with the same-shaped
distance matrix. -/
def ImpostorsDist (dataset : List Pt) (labels : List Nat) (k : Nat) :
    Except CError (List (List Nat) × List (List ℚ)) :=
  if dataset.length != labels.length then .error .DimensionMismatch
  else Except.map splitPairs
    (exMap (impostorColumnPairs dataset labels k) (List.range labels.length))

/-- Modelled from the spec: contiguous-batch indices-only Impostors
(constraints.hpp lines 113-117). -/
def ImpostorsBatch (dataset : List Pt) (labels : List Nat)
    (k bgn batchSize : Nat) : Except CError (List (List Nat)) :=
  if dataset.length != labels.length then .error .DimensionMismatch
  else if labels.length < bgn + batchSize then .error .IndexOutOfRange
  else exMap (impostorColumn dataset labels k) ((List.range batchSize).map (fun j => bgn + j))

/-- Modelled from the spec: explicit-point-list Impostors with distances
(constraints.hpp lines 148-152). -/
def ImpostorsPoints (dataset : List Pt) (labels : List Nat) (k : Nat)
    (points : List Nat) : Except CError (List (List Nat) × List (List ℚ)) :=
  if dataset.length != labels.length then .error .DimensionMismatch
  else if points.any (fun p => labels.length ≤ p) then .error .IndexOutOfRange
  else Except.map splitPairs (exMap (impostorColumnPairs dataset labels k) points)

/-- Modelled from the spec: Triplets (constraints.hpp lines 162-164): for each
anchor i in increasing order, the k*k triples (i, target r, impostor s) with r
outer and s inner, appended contiguously; the result is the list of N*k*k
columns of the 3 x (N*k*k) output matrix. -/
def Triplets (dataset : List Pt) (labels : List Nat) (k : Nat) :
    Except CError (List (Nat × Nat × Nat)) :=
  match TargetNeighbors dataset labels k with
  | .error e => .error e
  | .ok t =>
    match ImpostorsIdx dataset labels k with
    | .error e => .error e
    | .ok m =>
      .ok ((List.range labels.length).flatMap (fun i =>
        (t.getD i []).flatMap (fun r => (m.getD i []).map (fun s => (i, r, s)))))

/-- The private state of a `Constraints` instance (constraints.hpp lines
176-196): the neighbor count k, the cached partition (unique labels and the
per-label same/different index groups, the r-th group belonging to the r-th
unique label), and the precalculated flag. The spec requires the flag to track
whether the partition is valid for the current labels, so the model also
records the label vector the partition was computed from. -/
structure ConstraintsState where
  k : Nat
  uniqueLabels : List Nat
  indexSame : List (List Nat)
  indexDiff : List (List Nat)
  storedLabels : Option (List Nat)
  precalculated : Bool
deriving DecidableEq, Repr

/-- Modelled from the spec: `Precalculate` (constraints.hpp lines 192-196)
computes the distinct label set and the same/different index groups for each
distinct label; it is a no-op when the cached partition is already valid for
the supplied labels. -/
def Precalculate (st : ConstraintsState) (labels : List Nat) : ConstraintsState :=
  if st.precalculated && st.storedLabels == some labels then st
  else
    { k := st.k
      uniqueLabels := labels.dedup
      indexSame := labels.dedup.map (groupSame labels)
      indexDiff := labels.dedup.map (groupDiff labels)
      storedLabels := some labels
      precalculated := true }

/-- The state produced by the constructor (constraints.hpp lines 45-47):
nothing has ever been precalculated. -/
def ConstraintsState.init (k : Nat) : ConstraintsState :=
  { k := k
    uniqueLabels := []
    indexSame := []
    indexDiff := []
    storedLabels := none
    precalculated := false }

/-- The cached same-label group for label L, as a query consults it: the
group stored at the position of L in the cached unique-label list. -/
def lookupSame (st : ConstraintsState) (L : Nat) : List Nat :=
  st.indexSame.getD (st.uniqueLabels.indexOf L) []

/-- The cached different-label group for label L. -/
def lookupDiff (st : ConstraintsState) (L : Nat) : List Nat :=
  st.indexDiff.getD (st.uniqueLabels.indexOf L) []

/-- A cached partition is valid when, whenever the flag is set, the cached
fields are exactly those `Precalculate` computes from the stored labels. -/
def PartitionValid (st : ConstraintsState) : Prop :=
  st.precalculated = true →
    ∃ l, st.storedLabels = some l ∧
      st.uniqueLabels = l.dedup ∧
      st.indexSame = l.dedup.map (groupSame l) ∧
      st.indexDiff = l.dedup.map (groupDiff l)

/-- The whole world a call runs in: the caller-owned dataset and labels and
the Constraints object state. -/
structure World where
  dataset : List Pt
  labels : List Nat
  st : ConstraintsState
deriving DecidableEq, Repr

/-- A TargetNeighbors call as the caller observes it: the partition is made
valid for the supplied labels, then every column is answered from the cached
partition; the world holds the updated state, with dataset and labels passed
through read-only. -/
def TargetNeighborsCall (w : World) : World × Except CError (List (List Nat)) :=
  let st := Precalculate w.st w.labels
  (⟨w.dataset, w.labels, st⟩,
    if w.dataset.length != w.labels.length then .error .DimensionMismatch
    else exMap
      (fun c => knnIdx w.dataset
        ((lookupSame st (lbl w.labels c)).filter (fun i => i != c)) c st.k)
      (List.range w.labels.length))

/-- An indices-only Impostors call, answered from the cached partition. -/
def ImpostorsCall (w : World) : World × Except CError (List (List Nat)) :=
  let st := Precalculate w.st w.labels
  (⟨w.dataset, w.labels, st⟩,
    if w.dataset.length != w.labels.length then .error .DimensionMismatch
    else exMap
      (fun c => knnIdx w.dataset (lookupDiff st (lbl w.labels c)) c st.k)
      (List.range w.labels.length))

/-- A Triplets call: target neighbors and impostors from the cached partition,
composed per anchor. -/
def TripletsCall (w : World) : World × Except CError (List (Nat × Nat × Nat)) :=
  let w2 := (TargetNeighborsCall w).1
  (w2,
    match (TargetNeighborsCall w).2 with
    | .error e => .error e
    | .ok t =>
      match (ImpostorsCall w).2 with
      | .error e => .error e
      | .ok m =>
        .ok ((List.range w.labels.length).flatMap (fun i =>
          (t.getD i []).flatMap (fun r => (m.getD i []).map (fun s => (i, r, s))))))

/-! ### Helper lemmas -/

theorem exMap_ok_length {α : Type} {f : Nat → Except CError α} :
    ∀ {l : List Nat} {ys : List α}, exMap f l = .ok ys → ys.length = l.length := by
  intro l
  induction l with
  | nil => intro ys h; simp only [exMap] at h; cases h; rfl
  | cons x xs ih =>
    intro ys h
    simp only [exMap] at h
    cases hfx : f x with
    | error e => rw [hfx] at h; cases h
    | ok y =>
      rw [hfx] at h
      cases hrec : exMap f xs with
      | error e => rw [hrec] at h; cases h
      | ok ys2 =>
        rw [hrec] at h
        cases h
        simp [ih hrec]

theorem exMap_ok_getD {α : Type} {f : Nat → Except CError α} (d2 : α) :
    ∀ {l : List Nat} {ys : List α}, exMap f l = .ok ys →
      ∀ i, i < l.length → f (l.getD i 0) = .ok (ys.getD i d2) := by
  intro l
  induction l with
  | nil => intro ys h i hi; simp at hi
  | cons x xs ih =>
    intro ys h i hi
    simp only [exMap] at h
    cases hfx : f x with
    | error e => rw [hfx] at h; cases h
    | ok y =>
      rw [hfx] at h
      cases hrec : exMap f xs with
      | error e => rw [hrec] at h; cases h
      | ok ys2 =>
        rw [hrec] at h
        cases h
        cases i with
        | zero => simpa using hfx
        | succ n => simpa using ih hrec n (by simpa using hi)

theorem exMap_ok_of_mem {α : Type} {f : Nat → Except CError α} :
    ∀ {l : List Nat} {ys : List α}, exMap f l = .ok ys → ∀ x ∈ l, ∃ y, f x = .ok y := by
  intro l
  induction l with
  | nil => intro ys _ x hx; cases hx
  | cons a xs ih =>
    intro ys h x hx
    simp only [exMap] at h
    cases hfx : f a with
    | error e => rw [hfx] at h; cases h
    | ok y =>
      rw [hfx] at h
      cases hrec : exMap f xs with
      | error e => rw [hrec] at h; cases h
      | ok ys2 =>
        rcases List.mem_cons.1 hx with rfl | hx2
        · exact ⟨y, hfx⟩
        · exact ih hrec x hx2

theorem exMap_error_mem {α : Type} {f : Nat → Except CError α} :
    ∀ {l : List Nat} {e : CError}, exMap f l = .error e → ∃ x ∈ l, f x = .error e := by
  intro l
  induction l with
  | nil => intro e h; simp only [exMap] at h; cases h
  | cons a xs ih =>
    intro e h
    simp only [exMap] at h
    cases hfx : f a with
    | error e2 =>
      rw [hfx] at h
      cases h
      exact ⟨a, List.mem_cons_self a xs, hfx⟩
    | ok y =>
      rw [hfx] at h
      cases hrec : exMap f xs with
      | error e2 =>
        rw [hrec] at h
        cases h
        obtain ⟨x, hx, hfe⟩ := ih hrec
        exact ⟨x, List.mem_cons_of_mem a hx, hfe⟩
      | ok ys2 => rw [hrec] at h; cases h

theorem exMap_congr {α : Type} {f g : Nat → Except CError α} :
    ∀ {l : List Nat}, (∀ x ∈ l, f x = g x) → exMap f l = exMap g l := by
  intro l
  induction l with
  | nil => intro _; rfl
  | cons a xs ih =>
    intro h
    simp only [exMap, h a (List.mem_cons_self a xs), ih (fun x hx => h x (List.mem_cons_of_mem a hx))]

theorem exMap_map {α β : Type} (g : α → β) (f : Nat → Except CError (List α)) :
    ∀ (l : List Nat),
      exMap (fun c => Except.map (List.map g) (f c)) l =
        Except.map (List.map (List.map g)) (exMap f l) := by
  intro l
  induction l with
  | nil => rfl
  | cons a xs ih =>
    simp only [exMap, ih]
    cases f a with
    | error e => rfl
    | ok y =>
      cases exMap f xs with
      | error e => rfl
      | ok ys => rfl

theorem mem_groupSame {labels : List Nat} {L i : Nat} :
    i ∈ groupSame labels L ↔ i < labels.length ∧ lbl labels i = L := by
  simp [groupSame, List.mem_filter, List.mem_range]

theorem mem_groupDiff {labels : List Nat} {L i : Nat} :
    i ∈ groupDiff labels L ↔ i < labels.length ∧ lbl labels i ≠ L := by
  simp [groupDiff, List.mem_filter, List.mem_range]

theorem mem_targetRefs {labels : List Nat} {c i : Nat} :
    i ∈ targetRefs labels c ↔
      i < labels.length ∧ lbl labels i = lbl labels c ∧ i ≠ c := by
  simp [targetRefs, List.mem_filter, mem_groupSame, and_assoc]

theorem knnIdx_ok {dataset : List Pt} {R : List Nat} {q k : Nat} {ys : List Nat}
    (h : knnIdx dataset R q k = .ok ys) :
    ys.length = k ∧ (∀ y ∈ ys, y ∈ R) ∧ ys.Pairwise (nearLE dataset q) := by
  unfold knnIdx at h
  by_cases hlen : R.length < k
  · rw [if_pos hlen] at h; cases h
  · rw [if_neg hlen] at h
    cases h
    refine ⟨?_, ?_, ?_⟩
    · simp [List.length_take, List.length_insertionSort]
      omega
    · intro y hy
      exact ((List.perm_insertionSort (nearLE dataset q) R).mem_iff).1
        (List.take_subset _ _ hy)
    · exact (List.sorted_insertionSort (nearLE dataset q) R).sublist
        (List.take_sublist _ _)

theorem knnIdx_error {dataset : List Pt} {R : List Nat} {q k : Nat} {e : CError}
    (h : knnIdx dataset R q k = .error e) :
    e = .InsufficientReferencePoints ∧ R.length < k := by
  unfold knnIdx at h
  by_cases hlen : R.length < k
  · rw [if_pos hlen] at h; cases h; exact ⟨rfl, hlen⟩
  · rw [if_neg hlen] at h; cases h

theorem knnIdx_error_of_short {dataset : List Pt} {R : List Nat} {q k : Nat}
    (hlen : R.length < k) :
    knnIdx dataset R q k = .error .InsufficientReferencePoints := by
  unfold knnIdx
  rw [if_pos hlen]

theorem knnPairs_ok {dataset : List Pt} {R : List Nat} {q k : Nat}
    {ys : List (Nat × ℚ)} (h : knnPairs dataset R q k = .ok ys) :
    ys.length = k ∧ (∀ y ∈ ys, y.1 ∈ R ∧ y.2 = distTo dataset q y.1) ∧
      ys.Pairwise distLE := by
  unfold knnPairs at h
  by_cases hlen : R.length < k
  · rw [if_pos hlen] at h; cases h
  · rw [if_neg hlen] at h
    cases h
    refine ⟨?_, ?_, ?_⟩
    · simp [List.length_take, List.length_insertionSort]
      omega
    · intro y hy
      have hmem : y ∈ R.map (fun i => (i, distTo dataset q i)) :=
        ((List.perm_insertionSort distLE _).mem_iff).1 (List.take_subset _ _ hy)
      obtain ⟨i, hi, rfl⟩ := List.mem_map.1 hmem
      exact ⟨hi, rfl⟩
    · exact (List.sorted_insertionSort distLE _).sublist (List.take_sublist _ _)

theorem orderedInsert_map_dist (dataset : List Pt) (q : Nat) (a : Nat) :
    ∀ l : List Nat,
      (l.map (fun i => (i, distTo dataset q i))).orderedInsert distLE
          (a, distTo dataset q a) =
        (l.orderedInsert (nearLE dataset q) a).map (fun i => (i, distTo dataset q i)) := by
  intro l
  induction l with
  | nil => rfl
  | cons b t ih =>
    by_cases h : nearLE dataset q a b
    · simp only [List.map_cons, List.orderedInsert]
      rw [if_pos h, if_pos (show distLE (a, distTo dataset q a) (b, distTo dataset q b) from h)]
      simp
    · simp only [List.map_cons, List.orderedInsert]
      rw [if_neg h, if_neg (show ¬distLE (a, distTo dataset q a) (b, distTo dataset q b) from h)]
      simp [ih]

theorem insertionSort_map_dist (dataset : List Pt) (q : Nat) :
    ∀ l : List Nat,
      (l.map (fun i => (i, distTo dataset q i))).insertionSort distLE =
        (l.insertionSort (nearLE dataset q)).map (fun i => (i, distTo dataset q i)) := by
  intro l
  induction l with
  | nil => rfl
  | cons a t ih =>
    simp only [List.map_cons, List.insertionSort, ih]
    exact orderedInsert_map_dist dataset q a _

theorem knnIdx_eq_map_fst_knnPairs (dataset : List Pt) (R : List Nat) (q k : Nat) :
    knnIdx dataset R q k = Except.map (List.map Prod.fst) (knnPairs dataset R q k) := by
  unfold knnIdx knnPairs
  by_cases hlen : R.length < k
  · rw [if_pos hlen, if_pos hlen]; rfl
  · rw [if_neg hlen, if_neg hlen]
    simp only [Except.map, insertionSort_map_dist, List.map_take, List.map_map]
    congr 1
    have : (Prod.fst ∘ fun i => (i, distTo dataset q i)) = id := rfl
    rw [this, List.map_id]

theorem map_getD_range {α : Type} (d : α) :
    ∀ l : List α, (List.range l.length).map (fun i => l.getD i d) = l := by
  intro l
  induction l with
  | nil => rfl
  | cons a t ih =>
    rw [List.length_cons, List.range_succ_eq_map, List.map_cons, List.map_map]
    have hc : ((fun i => (a :: t).getD i d) ∘ Nat.succ) = (fun i => t.getD i d) := by
      funext i
      simp [List.getD_cons_succ]
    rw [List.getD_cons_zero, hc, ih]

theorem getD_range {n i : Nat} (h : i < n) : (List.range n).getD i 0 = i := by
  rw [List.getD_eq_getElem _ _ (by simpa using h), List.getElem_range]

theorem flatMap_slice {β : Type} (F : Nat → List β) (m : Nat) :
    ∀ (l : List Nat), (∀ x ∈ l, (F x).length = m) →
      ∀ j, j < l.length →
        ((l.flatMap F).drop (j * m)).take m = F (l.getD j 0) := by
  intro l
  induction l with
  | nil => intro _ j hj; simp at hj
  | cons a t ih =>
    intro hF j hj
    cases j with
    | zero =>
      simp only [List.flatMap_cons, Nat.zero_mul, List.drop_zero, List.getD_cons_zero]
      rw [← hF a (List.mem_cons_self a t), List.take_left]
    | succ n =>
      have hs : (n + 1) * m = (F a).length + n * m := by
        rw [hF a (List.mem_cons_self a t)]; ring
      simp only [List.flatMap_cons, List.getD_cons_succ, hs, List.drop_append]
      exact ih (fun x hx => hF x (List.mem_cons_of_mem a hx)) n (by simpa using hj)

theorem flatMap_length_uniform {β : Type} (F : Nat → List β) (m : Nat) :
    ∀ (l : List Nat), (∀ x ∈ l, (F x).length = m) →
      (l.flatMap F).length = l.length * m := by
  intro l
  induction l with
  | nil => intro _; simp
  | cons a t ih =>
    intro hF
    simp only [List.flatMap_cons, List.length_append, List.length_cons,
      hF a (List.mem_cons_self a t), ih (fun x hx => hF x (List.mem_cons_of_mem a hx))]
    ring

theorem getD_indexOf_map (f : Nat → List Nat) (l : List Nat) (L : Nat) (h : L ∈ l) :
    (l.map f).getD (l.indexOf L) [] = f L := by
  have hlt : l.indexOf L < l.length := List.indexOf_lt_length.2 h
  rw [List.getD_eq_getElem _ _ (by simpa using hlt), List.getElem_map, List.getElem_indexOf]

/-! ### Concrete scenario data (spec section 8): 6 points on the x-axis. -/

/-- The 6-point two-dimensional dataset of the concrete scenario. -/
def ds7 : List Pt := [[0, 0], [1, 0], [2, 0], [10, 0], [11, 0], [12, 0]]

/-- The labels of the concrete scenario. -/
def lb7 : List Nat := [0, 0, 0, 1, 1, 1]

/-- The TargetNeighbors result of the concrete scenario with k = 2. -/
def t7 : List (List Nat) := [[1, 2], [0, 2], [1, 0], [4, 5], [3, 5], [4, 3]]

/-- The Impostors index matrix of the concrete scenario with k = 2. -/
def m7 : List (List Nat) := [[3, 4], [3, 4], [3, 4], [2, 1], [2, 1], [2, 1]]

/-- The Impostors distance matrix of the concrete scenario with k = 2. -/
def d7 : List (List ℚ) :=
  [[100, 121], [81, 100], [64, 81], [64, 81], [81, 100], [100, 121]]

/-! ### Claim theorems -/

/-- C1: for every valid dataset, labels and k, a successful full-dataset
TargetNeighbors result has one column per point with exactly k rows each; every
entry of column c is a global dataset index (distinct from c) whose label
equals the label of query point c, and the entries of each column are sorted by
non-decreasing distance to the query point. -/
theorem TargetNeighbors_spec (dataset : List Pt) (labels : List Nat) (k : Nat)
    (cols : List (List Nat)) (h : TargetNeighbors dataset labels k = .ok cols) :
    cols.length = labels.length ∧
    ∀ c, c < cols.length →
      (cols.getD c []).length = k ∧
      (∀ j ∈ cols.getD c [],
        j < labels.length ∧ lbl labels j = lbl labels c ∧ j ≠ c) ∧
      (cols.getD c []).Pairwise (nearLE dataset c) := by
  unfold TargetNeighbors at h
  by_cases hdim : dataset.length != labels.length
  · rw [if_pos hdim] at h; cases h
  · rw [if_neg hdim] at h
    have hlen := exMap_ok_length h
    rw [List.length_range] at hlen
    refine ⟨hlen, ?_⟩
    intro c hc
    have hc2 : c < labels.length := hlen ▸ hc
    have hcol := exMap_ok_getD [] h c (by simpa using hc2)
    rw [getD_range hc2] at hcol
    have hk := knnIdx_ok hcol
    refine ⟨hk.1, ?_, hk.2.2⟩
    intro j hj
    exact mem_targetRefs.1 (hk.2.1 j hj)

/-- Witness for C1 at the concrete scenario: the hypothesis holds at
(ds7, lb7, 2) and column 0 of the result has exactly 2 rows. -/
theorem TargetNeighbors_spec_witness :
    TargetNeighbors ds7 lb7 2 = .ok t7 ∧ (t7.getD 0 []).length = 2 :=
  ⟨by with_unfolding_all decide,
   ((TargetNeighbors_spec ds7 lb7 2 t7 (by with_unfolding_all decide)).2 0
     (by decide)).1⟩

/-- C2: for every valid dataset, labels and k, a successful Impostors call with
distances produces an index matrix in which every entry of column c has a
label different from that of query point c, and a distance matrix of identical
k-by-Q shape whose columns are non-decreasing from top to bottom. -/
theorem ImpostorsDist_spec (dataset : List Pt) (labels : List Nat) (k : Nat)
    (nbrs : List (List Nat)) (dists : List (List ℚ))
    (h : ImpostorsDist dataset labels k = .ok (nbrs, dists)) :
    nbrs.length = labels.length ∧ dists.length = labels.length ∧
    ∀ c, c < labels.length →
      (nbrs.getD c []).length = k ∧
      (dists.getD c []).length = k ∧
      (∀ j ∈ nbrs.getD c [], j < labels.length ∧ lbl labels j ≠ lbl labels c) ∧
      (dists.getD c []).Pairwise (fun a b => a ≤ b) := by
  unfold ImpostorsDist at h
  by_cases hdim : dataset.length != labels.length
  · rw [if_pos hdim] at h; cases h
  · rw [if_neg hdim] at h
    cases hex : exMap (impostorColumnPairs dataset labels k) (List.range labels.length) with
    | error e => rw [hex] at h; cases h
    | ok pcols =>
      rw [hex] at h
      cases h
      have hlen := exMap_ok_length hex
      rw [List.length_range] at hlen
      refine ⟨by simp [splitPairs, hlen], by simp [splitPairs, hlen], ?_⟩
      intro c hc
      have hcol := exMap_ok_getD [] hex c (by simpa using hc)
      rw [getD_range hc] at hcol
      have hk := knnPairs_ok hcol
      have hclen : c < pcols.length := hlen ▸ hc
      have hn : (List.map (List.map Prod.fst) pcols).getD c [] =
          (pcols.getD c []).map Prod.fst := by
        rw [List.getD_eq_getElem _ _ (by simpa using hclen), List.getElem_map,
          List.getD_eq_getElem _ _ hclen]
      have hd : (List.map (List.map Prod.snd) pcols).getD c [] =
          (pcols.getD c []).map Prod.snd := by
        rw [List.getD_eq_getElem _ _ (by simpa using hclen), List.getElem_map,
          List.getD_eq_getElem _ _ hclen]
      refine ⟨by rw [hn, List.length_map]; exact hk.1,
        by rw [hd, List.length_map]; exact hk.1, ?_, ?_⟩
      · intro j hj
        rw [hn] at hj
        obtain ⟨p, hp, rfl⟩ := List.mem_map.1 hj
        exact mem_groupDiff.1 (hk.2.1 p hp).1
      · rw [hd]
        exact List.pairwise_map.2 hk.2.2

/-- Witness for C2 at the concrete scenario: the hypothesis holds at
(ds7, lb7, 2) and the distance column of point 0 is non-decreasing. -/
theorem ImpostorsDist_spec_witness :
    ImpostorsDist ds7 lb7 2 = .ok (m7, d7) ∧
      (d7.getD 0 []).Pairwise (fun a b => a ≤ b) :=
  ⟨by with_unfolding_all decide,
   ((ImpostorsDist_spec ds7 lb7 2 m7 d7 (by with_unfolding_all decide)).2.2 0
     (by decide)).2.2.2⟩


theorem getD_range_add {bgn n j : Nat} (h : j < n) :
    ((List.range n).map (fun x => bgn + x)).getD j 0 = bgn + j := by
  rw [List.getD_eq_getElem _ _ (by simpa using h), List.getElem_map, List.getElem_range]

theorem getD_map_list {α β : Type} (g : α → β) {l : List (List α)} {c : Nat}
    (h : c < l.length) :
    (l.map (List.map g)).getD c [] = (l.getD c []).map g := by
  rw [List.getD_eq_getElem _ _ (by simpa using h), List.getElem_map,
    List.getD_eq_getElem _ _ h]

/-- C10: the indices-only Impostors overload returns exactly the index-matrix
component of the indices-plus-distances Impostors overload on the same
inputs, errors included. -/
theorem ImpostorsIdx_eq_fst_ImpostorsDist (dataset : List Pt) (labels : List Nat)
    (k : Nat) :
    ImpostorsIdx dataset labels k =
      Except.map Prod.fst (ImpostorsDist dataset labels k) := by
  unfold ImpostorsIdx ImpostorsDist
  by_cases hdim : dataset.length != labels.length
  · rw [if_pos hdim, if_pos hdim]; rfl
  · rw [if_neg hdim, if_neg hdim]
    have h1 : ∀ c ∈ List.range labels.length,
        impostorColumn dataset labels k c =
          Except.map (List.map Prod.fst) (impostorColumnPairs dataset labels k c) := by
      intro c _
      exact knnIdx_eq_map_fst_knnPairs dataset _ c k
    rw [exMap_congr h1, exMap_map]
    cases exMap (impostorColumnPairs dataset labels k) (List.range labels.length) with
    | error e => rfl
    | ok pcols => rfl

/-- C4: for every point i, the column for i of a successful full-dataset
TargetNeighbors or Impostors call equals the column for i of any successful
contiguous-batch call whose range contains i, and of any successful
explicit-point-list Impostors call at every position listing i. -/
theorem batch_consistency (dataset : List Pt) (labels : List Nat) (k : Nat) :
    (∀ bgn batchSize cols bcols i,
      TargetNeighbors dataset labels k = .ok cols →
      TargetNeighborsBatch dataset labels k bgn batchSize = .ok bcols →
      bgn ≤ i → i < bgn + batchSize →
      bcols.getD (i - bgn) [] = cols.getD i []) ∧
    (∀ bgn batchSize cols bcols i,
      ImpostorsIdx dataset labels k = .ok cols →
      ImpostorsBatch dataset labels k bgn batchSize = .ok bcols →
      bgn ≤ i → i < bgn + batchSize →
      bcols.getD (i - bgn) [] = cols.getD i []) ∧
    (∀ points nbrs dists pn pd j,
      ImpostorsDist dataset labels k = .ok (nbrs, dists) →
      ImpostorsPoints dataset labels k points = .ok (pn, pd) →
      j < points.length →
      pn.getD j [] = nbrs.getD (points.getD j 0) [] ∧
      pd.getD j [] = dists.getD (points.getD j 0) []) := by
  refine ⟨?_, ?_, ?_⟩
  · intro bgn batchSize cols bcols i h hb hge hlt
    unfold TargetNeighbors at h
    unfold TargetNeighborsBatch at hb
    by_cases hdim : dataset.length != labels.length
    · rw [if_pos hdim] at h; cases h
    · rw [if_neg hdim] at h
      rw [if_neg hdim] at hb
      by_cases hrange : labels.length < bgn + batchSize
      · rw [if_pos hrange] at hb; cases hb
      · rw [if_neg hrange] at hb
        have hiN : i < labels.length := by omega
        have h1 := exMap_ok_getD [] h i (by simpa using hiN)
        rw [getD_range hiN] at h1
        have h2 := exMap_ok_getD [] hb (i - bgn) (by simp; omega)
        rw [getD_range_add (by omega : i - bgn < batchSize)] at h2
        rw [show bgn + (i - bgn) = i by omega] at h2
        exact Except.ok.inj (h2.symm.trans h1)
  · intro bgn batchSize cols bcols i h hb hge hlt
    unfold ImpostorsIdx at h
    unfold ImpostorsBatch at hb
    by_cases hdim : dataset.length != labels.length
    · rw [if_pos hdim] at h; cases h
    · rw [if_neg hdim] at h
      rw [if_neg hdim] at hb
      by_cases hrange : labels.length < bgn + batchSize
      · rw [if_pos hrange] at hb; cases hb
      · rw [if_neg hrange] at hb
        have hiN : i < labels.length := by omega
        have h1 := exMap_ok_getD [] h i (by simpa using hiN)
        rw [getD_range hiN] at h1
        have h2 := exMap_ok_getD [] hb (i - bgn) (by simp; omega)
        rw [getD_range_add (by omega : i - bgn < batchSize)] at h2
        rw [show bgn + (i - bgn) = i by omega] at h2
        exact Except.ok.inj (h2.symm.trans h1)
  · intro points nbrs dists pn pd j h hp hj
    unfold ImpostorsDist at h
    unfold ImpostorsPoints at hp
    by_cases hdim : dataset.length != labels.length
    · rw [if_pos hdim] at h; cases h
    · rw [if_neg hdim] at h
      rw [if_neg hdim] at hp
      by_cases hrange : points.any (fun p => labels.length ≤ p)
      · rw [if_pos hrange] at hp; cases hp
      · rw [if_neg hrange] at hp
        cases hex : exMap (impostorColumnPairs dataset labels k) (List.range labels.length) with
        | error e => rw [hex] at h; cases h
        | ok pcols =>
          rw [hex] at h
          cases h
          cases hqex : exMap (impostorColumnPairs dataset labels k) points with
          | error e => rw [hqex] at hp; cases hp
          | ok qcols =>
            rw [hqex] at hp
            cases hp
            have hpN : points.getD j 0 < labels.length := by
              have hmem : points.getD j 0 ∈ points := by
                rw [List.getD_eq_getElem _ _ hj]
                exact List.getElem_mem hj
              by_contra hcon
              exact (List.any_eq_false.mp (Bool.not_eq_true _ ▸ hrange) _ hmem)
                (by simpa using hcon)
            have h1 := exMap_ok_getD [] hex (points.getD j 0) (by simpa using hpN)
            rw [getD_range hpN] at h1
            have h2 := exMap_ok_getD [] hqex j hj
            have hcols : qcols.getD j [] = pcols.getD (points.getD j 0) [] :=
              Except.ok.inj (h2.symm.trans h1)
            have hjq : j < qcols.length := (exMap_ok_length hqex).symm ▸ hj
            have hpp : points.getD j 0 < pcols.length := by
              rw [exMap_ok_length hex, List.length_range]
              exact hpN
            constructor
            · rw [getD_map_list Prod.fst hjq, getD_map_list Prod.fst hpp, hcols]
            · rw [getD_map_list Prod.snd hjq, getD_map_list Prod.snd hpp, hcols]

/-- Witness for C4 at the concrete scenario: a batch of size 2 starting at
point 1, and the explicit point list [0, 5], agree with the full-dataset
columns. -/
theorem batch_consistency_witness :
    (TargetNeighborsBatch ds7 lb7 2 1 2 = .ok [[0, 2], [1, 0]] ∧
      ([[0, 2], [1, 0]] : List (List Nat)).getD 1 [] = t7.getD 2 []) ∧
    (ImpostorsPoints ds7 lb7 2 [0, 5] =
        .ok ([[3, 4], [2, 1]], [[100, 121], [100, 121]]) ∧
      ([[100, 121], [100, 121]] : List (List ℚ)).getD 1 [] = d7.getD 5 []) :=
  ⟨⟨by with_unfolding_all decide,
    (batch_consistency ds7 lb7 2).1 1 2 t7 [[0, 2], [1, 0]]
      2 (by with_unfolding_all decide) (by with_unfolding_all decide)
      (by decide) (by decide)⟩,
   ⟨by with_unfolding_all decide,
    ((batch_consistency ds7 lb7 2).2.2 [0, 5] m7 d7
      [[3, 4], [2, 1]] [[100, 121], [100, 121]] 1
      (by with_unfolding_all decide) (by with_unfolding_all decide)
      (by decide)).2⟩⟩

/-- C6: when some represented label L has a same-label group of at most k
members (so the self-excluding reference group has fewer than k members), a
full-dataset TargetNeighbors call, and the Triplets call that needs it, fail
with InsufficientReferencePoints and produce no output. -/
theorem TargetNeighbors_insufficient (dataset : List Pt) (labels : List Nat)
    (k L : Nat) (hdim : dataset.length = labels.length)
    (hL : L ∈ labels) (hk : (groupSame labels L).length ≤ k) :
    TargetNeighbors dataset labels k = .error .InsufficientReferencePoints ∧
    Triplets dataset labels k = .error .InsufficientReferencePoints := by
  obtain ⟨c, hc, hcL⟩ := List.mem_iff_getElem.1 hL
  have hlbl : lbl labels c = L := by
    rw [lbl, List.getD_eq_getElem _ _ hc, hcL]
  have hcg : c ∈ groupSame labels L := mem_groupSame.2 ⟨hc, hlbl⟩
  have hnodup : (groupSame labels L).Nodup :=
    (List.nodup_range labels.length).filter _
  have herase : (groupSame labels L).length - 1 < k := by
    have h1 : 1 ≤ (groupSame labels L).length := List.length_pos_of_mem hcg
    omega
  have hrefs : (targetRefs labels c).length < k := by
    unfold targetRefs
    rw [hlbl]
    have heq : (groupSame labels L).filter (fun i => i != c) =
        (groupSame labels L).erase c := by
      rw [List.Nodup.erase_eq_filter hnodup]
    rw [heq, List.length_erase_of_mem hcg]
    exact herase
  have hcol : targetColumn dataset labels k c = .error .InsufficientReferencePoints :=
    knnIdx_error_of_short hrefs
  have htn : TargetNeighbors dataset labels k = .error .InsufficientReferencePoints := by
    unfold TargetNeighbors
    rw [if_neg (by simp [hdim])]
    cases hex : exMap (targetColumn dataset labels k) (List.range labels.length) with
    | ok ys =>
      obtain ⟨y, hy⟩ := exMap_ok_of_mem hex c (by simpa using hc)
      rw [hcol] at hy
      cases hy
    | error e =>
      obtain ⟨x, _, hx⟩ := exMap_error_mem hex
      obtain ⟨he, _⟩ := knnIdx_error hx
      rw [he]
  refine ⟨htn, ?_⟩
  unfold Triplets
  rw [htn]

/-- Witness for C6: three points with labels [0, 0, 1]; label 1 occurs once,
so its self-excluding reference group is empty and k = 2 cannot be served. -/
theorem TargetNeighbors_insufficient_witness :
    (([[0], [1], [2]] : List Pt).length = ([0, 0, 1] : List Nat).length ∧
      1 ∈ ([0, 0, 1] : List Nat) ∧ (groupSame [0, 0, 1] 1).length ≤ 2) ∧
    TargetNeighbors [[0], [1], [2]] [0, 0, 1] 2 =
      .error .InsufficientReferencePoints :=
  ⟨⟨by decide, by decide, by decide⟩,
   (TargetNeighbors_insufficient [[0], [1], [2]] [0, 0, 1] 2 1
     (by decide) (by decide) (by decide)).1⟩

theorem TargetNeighbors_ok_col {dataset : List Pt} {labels : List Nat} {k : Nat}
    {t : List (List Nat)} (ht : TargetNeighbors dataset labels k = .ok t)
    {i : Nat} (hi : i < labels.length) :
    targetColumn dataset labels k i = .ok (t.getD i []) := by
  unfold TargetNeighbors at ht
  by_cases hdim : dataset.length != labels.length
  · rw [if_pos hdim] at ht; cases ht
  · rw [if_neg hdim] at ht
    have h1 := exMap_ok_getD [] ht i (by simpa using hi)
    rwa [getD_range hi] at h1

theorem ImpostorsIdx_ok_col {dataset : List Pt} {labels : List Nat} {k : Nat}
    {m : List (List Nat)} (hm : ImpostorsIdx dataset labels k = .ok m)
    {i : Nat} (hi : i < labels.length) :
    impostorColumn dataset labels k i = .ok (m.getD i []) := by
  unfold ImpostorsIdx at hm
  by_cases hdim : dataset.length != labels.length
  · rw [if_pos hdim] at hm; cases hm
  · rw [if_neg hdim] at hm
    have h1 := exMap_ok_getD [] hm i (by simpa using hi)
    rwa [getD_range hi] at h1

theorem flatMap_map_range {β : Type} (tcol icol : List Nat) (g : Nat → Nat → β) :
    tcol.flatMap (fun r => icol.map (fun s => g r s)) =
      (List.range tcol.length).flatMap (fun r => (List.range icol.length).map
        (fun s => g (tcol.getD r 0) (icol.getD s 0))) := by
  conv_lhs => rw [← map_getD_range 0 tcol, ← map_getD_range 0 icol]
  rw [List.flatMap_map]
  simp only [List.map_map]
  rfl

/-- C3: a successful Triplets call produces exactly N*k*k triples; the block of
k*k triples at offset i*k*k is exactly the Cartesian product of anchor i with
its target-neighbor column and its impostor column, in row-major order (target
index r outer, impostor index s inner), so the anchors appear contiguously in
increasing order. -/
theorem Triplets_spec (dataset : List Pt) (labels : List Nat) (k : Nat)
    (trip : List (Nat × Nat × Nat)) (t m : List (List Nat))
    (ht : TargetNeighbors dataset labels k = .ok t)
    (hm : ImpostorsIdx dataset labels k = .ok m)
    (h : Triplets dataset labels k = .ok trip) :
    trip.length = labels.length * (k * k) ∧
    ∀ i, i < labels.length →
      (trip.drop (i * (k * k))).take (k * k) =
        (List.range k).flatMap (fun r => (List.range k).map (fun s =>
          (i, (t.getD i []).getD r 0, (m.getD i []).getD s 0))) := by
  unfold Triplets at h
  rw [ht, hm] at h
  have htrip : trip = (List.range labels.length).flatMap (fun i =>
      (t.getD i []).flatMap (fun r => (m.getD i []).map (fun s => (i, r, s)))) :=
    (Except.ok.inj h).symm
  have hcl : ∀ i, i < labels.length →
      (t.getD i []).length = k ∧ (m.getD i []).length = k := by
    intro i hi
    exact ⟨(knnIdx_ok (TargetNeighbors_ok_col ht hi)).1,
      (knnIdx_ok (ImpostorsIdx_ok_col hm hi)).1⟩
  have huniform : ∀ i ∈ List.range labels.length,
      ((t.getD i []).flatMap (fun r => (m.getD i []).map (fun s => (i, r, s)))).length
        = k * k := by
    intro i hi
    have hi2 : i < labels.length := by simpa using hi
    rw [flatMap_length_uniform _ (m.getD i []).length _
      (fun x _ => List.length_map _ _), (hcl i hi2).1, (hcl i hi2).2]
  constructor
  · rw [htrip, flatMap_length_uniform _ (k * k) _ huniform, List.length_range]
  · intro i hi
    rw [htrip, flatMap_slice _ (k * k) _ huniform i (by simpa using hi),
      getD_range hi, flatMap_map_range, (hcl i hi).1, (hcl i hi).2]

/-- The Triplets result of the concrete scenario with k = 2. -/
def trip7 : List (Nat × Nat × Nat) :=
  [(0, 1, 3), (0, 1, 4), (0, 2, 3), (0, 2, 4),
   (1, 0, 3), (1, 0, 4), (1, 2, 3), (1, 2, 4),
   (2, 1, 3), (2, 1, 4), (2, 0, 3), (2, 0, 4),
   (3, 4, 2), (3, 4, 1), (3, 5, 2), (3, 5, 1),
   (4, 3, 2), (4, 3, 1), (4, 5, 2), (4, 5, 1),
   (5, 4, 2), (5, 4, 1), (5, 3, 2), (5, 3, 1)]

/-- Witness for C3 at the concrete scenario: the hypotheses hold at
(ds7, lb7, 2) and the 24-triple output has length 6 * 2 * 2. -/
theorem Triplets_spec_witness :
    Triplets ds7 lb7 2 = .ok trip7 ∧ trip7.length = lb7.length * (2 * 2) :=
  ⟨by with_unfolding_all decide,
   (Triplets_spec ds7 lb7 2 trip7 t7 m7 (by with_unfolding_all decide)
     (by with_unfolding_all decide) (by with_unfolding_all decide)).1⟩

/-- C5: invoking Precalculate a second time on an unchanged label vector is a
no-op: the unique labels, group lists, stored labels and flag all come out
bit-identical to the first invocation's. -/
theorem Precalculate_idem (st : ConstraintsState) (labels : List Nat) :
    Precalculate (Precalculate st labels) labels = Precalculate st labels := by
  unfold Precalculate
  by_cases h : st.precalculated && st.storedLabels == some labels
  · rw [if_pos h, if_pos h]
  · rw [if_neg h]
    rw [if_pos (by simp)]

theorem Precalculate_fresh (st : ConstraintsState) (labels : List Nat)
    (h : PartitionValid st) :
    (Precalculate st labels).k = st.k ∧
    ∀ L ∈ labels,
      lookupSame (Precalculate st labels) L = groupSame labels L ∧
      lookupDiff (Precalculate st labels) L = groupDiff labels L := by
  unfold Precalculate
  by_cases hc : st.precalculated && st.storedLabels == some labels
  · rw [if_pos hc]
    have hc2 : st.precalculated = true ∧ (st.storedLabels == some labels) = true := by
      simpa [Bool.and_eq_true] using hc
    have hpre : st.precalculated = true := hc2.1
    have hst : st.storedLabels = some labels := beq_iff_eq.1 hc2.2
    obtain ⟨l, hl, hu, hs, hd⟩ := h hpre
    rw [hl] at hst
    obtain rfl : l = labels := Option.some.inj hst
    refine ⟨rfl, ?_⟩
    intro L hL
    unfold lookupSame lookupDiff
    rw [hu, hs, hd]
    exact ⟨getD_indexOf_map _ _ _ (List.mem_dedup.2 hL),
      getD_indexOf_map _ _ _ (List.mem_dedup.2 hL)⟩
  · rw [if_neg hc]
    refine ⟨rfl, ?_⟩
    intro L hL
    unfold lookupSame lookupDiff
    exact ⟨getD_indexOf_map _ _ _ (List.mem_dedup.2 hL),
      getD_indexOf_map _ _ _ (List.mem_dedup.2 hL)⟩

/-- C8: a query call never consults a stale partition: starting from any state
whose cached partition is valid for whatever labels it was built from, a call
supplying a (possibly different) label vector recomputes the partition before
consulting it, so its result is exactly the pure computation on the supplied
dataset, labels and k. -/
theorem no_stale_partition (w : World) (h : PartitionValid w.st) :
    (TargetNeighborsCall w).2 = TargetNeighbors w.dataset w.labels w.st.k ∧
    (ImpostorsCall w).2 = ImpostorsIdx w.dataset w.labels w.st.k ∧
    (TripletsCall w).2 = Triplets w.dataset w.labels w.st.k := by
  obtain ⟨hk, hgroups⟩ := Precalculate_fresh w.st w.labels h
  have hmemlbl : ∀ c ∈ List.range w.labels.length, lbl w.labels c ∈ w.labels := by
    intro c hc
    have hc2 : c < w.labels.length := by simpa using hc
    rw [lbl, List.getD_eq_getElem _ _ hc2]
    exact List.getElem_mem hc2
  have htn : (TargetNeighborsCall w).2 = TargetNeighbors w.dataset w.labels w.st.k := by
    have hdef : (TargetNeighborsCall w).2 =
        (if (w.dataset.length != w.labels.length) = true then
          (Except.error CError.DimensionMismatch : Except CError (List (List Nat)))
        else exMap (fun c => knnIdx w.dataset
          ((lookupSame (Precalculate w.st w.labels) (lbl w.labels c)).filter
            (fun i => i != c)) c (Precalculate w.st w.labels).k)
          (List.range w.labels.length)) := rfl
    rw [hdef]
    unfold TargetNeighbors
    by_cases hdim : w.dataset.length != w.labels.length
    · rw [if_pos hdim, if_pos hdim]
    · rw [if_neg hdim, if_neg hdim]
      apply exMap_congr
      intro c hc
      rw [(hgroups _ (hmemlbl c hc)).1, hk]
      rfl
  have him : (ImpostorsCall w).2 = ImpostorsIdx w.dataset w.labels w.st.k := by
    have hdef : (ImpostorsCall w).2 =
        (if (w.dataset.length != w.labels.length) = true then
          (Except.error CError.DimensionMismatch : Except CError (List (List Nat)))
        else exMap (fun c => knnIdx w.dataset
          (lookupDiff (Precalculate w.st w.labels) (lbl w.labels c)) c
          (Precalculate w.st w.labels).k)
          (List.range w.labels.length)) := rfl
    rw [hdef]
    unfold ImpostorsIdx
    by_cases hdim : w.dataset.length != w.labels.length
    · rw [if_pos hdim, if_pos hdim]
    · rw [if_neg hdim, if_neg hdim]
      apply exMap_congr
      intro c hc
      rw [(hgroups _ (hmemlbl c hc)).2, hk]
      rfl
  refine ⟨htn, him, ?_⟩
  show (match (TargetNeighborsCall w).2 with
    | .error e => .error e
    | .ok t =>
      match (ImpostorsCall w).2 with
      | .error e => .error e
      | .ok m =>
        .ok ((List.range w.labels.length).flatMap (fun i =>
          (t.getD i []).flatMap (fun r => (m.getD i []).map (fun s => (i, r, s)))))) =
    Triplets w.dataset w.labels w.st.k
  rw [htn, him]
  rfl

/-- Witness for C8: a state precalculated from reversed labels is then used in
a call supplying the scenario labels; the call still returns the pure
full-dataset result for the supplied labels. -/
theorem no_stale_partition_witness :
    (TargetNeighborsCall
        ⟨ds7, lb7, Precalculate (ConstraintsState.init 2) [1, 1, 1, 0, 0, 0]⟩).2 =
      TargetNeighbors ds7 lb7
        (Precalculate (ConstraintsState.init 2) [1, 1, 1, 0, 0, 0]).k :=
  (no_stale_partition ⟨ds7, lb7, Precalculate (ConstraintsState.init 2) [1, 1, 1, 0, 0, 0]⟩
    (fun _ => ⟨[1, 1, 1, 0, 0, 0], by decide, by decide, by decide, by decide⟩)).1

/-- C9: every operation passes the dataset and label vector through unchanged:
the world after a TargetNeighbors, Impostors or Triplets call holds the same
dataset and the same labels as before the call. -/
theorem calls_readonly (w : World) :
    (TargetNeighborsCall w).1.dataset = w.dataset ∧
    (TargetNeighborsCall w).1.labels = w.labels ∧
    (ImpostorsCall w).1.dataset = w.dataset ∧
    (ImpostorsCall w).1.labels = w.labels ∧
    (TripletsCall w).1.dataset = w.dataset ∧
    (TripletsCall w).1.labels = w.labels :=
  ⟨rfl, rfl, rfl, rfl, rfl, rfl⟩

/-- C7 counterexample: under the default squared-Euclidean metric declared in
constraints.hpp, the impostor distances of point 0 in the concrete scenario
are 100 and 121, not the 10 and 11 the claim states. -/
theorem concrete_scenario_distances_counterexample :
    (ImpostorsDist ds7 lb7 2).map (fun p => p.2.getD 0 []) = .ok [100, 121] ∧
    (ImpostorsDist ds7 lb7 2).map (fun p => p.2.getD 0 []) ≠ .ok [10, 11] := by
  constructor
  · with_unfolding_all decide
  · with_unfolding_all decide

/-- C7 amended: in the concrete scenario, TargetNeighbors for point 0 returns
indices [1, 2] in that distance order, Impostors for point 0 returns indices
[3, 4] with squared distances [100, 121], and the triples for anchor 0 are
exactly (0,1,3), (0,1,4), (0,2,3), (0,2,4). -/
theorem concrete_scenario_amended :
    (TargetNeighbors ds7 lb7 2).map (fun t => t.getD 0 []) = .ok [1, 2] ∧
    (ImpostorsDist ds7 lb7 2).map (fun p => (p.1.getD 0 [], p.2.getD 0 [])) =
      .ok ([3, 4], [100, 121]) ∧
    (Triplets ds7 lb7 2).map (fun t => t.take 4) =
      .ok [(0, 1, 3), (0, 1, 4), (0, 2, 3), (0, 2, 4)] := by
  refine ⟨?_, ?_, ?_⟩
  · with_unfolding_all decide
  · with_unfolding_all decide
  · with_unfolding_all decide
